import Mathlib

/-!
Shallow embedding of the doodle-paper drawing engine
(`src/packages/doodle/brush.ts` and the `Paper` class), covering the
brush stroke-capture pipeline, the undo/redo history model, the
viewport bounds correction, the animation controller and the
`strokeStyle` color formatting.  Numbers that the source manipulates as
IEEE floats are modelled as rationals (`ℚ`); the square roots appearing
in distance computations are modelled with `Real.sqrt` inside
propositions, with decidability obtained from the equivalent squared
comparisons.
-/

/-- `clampNumber(value, min, max)` from the source: `Math.min(Math.max(value, min), max)`. -/
def clampNumber (value lo hi : ℚ) : ℚ :=
  min (max value lo) hi

/-- `TimePoint` — an immutable 2D coordinate with a timestamp
(`brush.ts`, class `TimePoint`). -/
structure TimePoint where
  x : ℚ
  y : ℚ
  time : ℤ
deriving DecidableEq, Repr

instance : Inhabited TimePoint := ⟨⟨0, 0, 0⟩⟩

namespace TimePoint

/-- The squared distance `dx*dx + dy*dy` used inside `TimePoint.distance(o)`;
the source's `distance` is `Math.sqrt` of this quantity, which we keep at the
proposition level as `Real.sqrt` (an executable `ℝ`-valued definition is not
available). -/
def distSq (p o : TimePoint) : ℚ :=
  (o.x - p.x) * (o.x - p.x) + (o.y - p.y) * (o.y - p.y)

/-- `TimePoint.middle(p0, p1)`: averages the coordinates and floors the
averaged timestamp (`Math.floor((p0.time + p1.time) / 2)`). -/
def middle (p0 p1 : TimePoint) : TimePoint :=
  ⟨(p0.x + p1.x) / 2, (p0.y + p1.y) / 2, Int.fdiv (p0.time + p1.time) 2⟩

theorem distSq_nonneg (p o : TimePoint) : 0 ≤ distSq p o := by
  have hx := mul_self_nonneg (o.x - p.x)
  have hy := mul_self_nonneg (o.y - p.y)
  unfold distSq
  linarith

end TimePoint

/-- `BrushType` from `brush.ts`. -/
inductive BrushType where
  | marking
  | eraser
deriving DecidableEq, Repr

/-- `BrushLineCap` from `brush.ts`. -/
inductive BrushLineCap where
  | butt
  | round
  | square
deriving DecidableEq, Repr

/-- `BrushLineJoin` from `brush.ts`. -/
inductive BrushLineJoin where
  | bevel
  | round
  | miter
deriving DecidableEq, Repr

/-- `BrushBlendMode` from `brush.ts` (the canvas composite operations). -/
inductive BrushBlendMode where
  | sourceOver | sourceIn | sourceOut | sourceAtop
  | destinationOver | destinationIn | destinationOut | destinationAtop
  | lighter | copy | xor | multiply | screen | overlay | darken | lighten
  | colorDodge | colorBurn | hardLight | softLight | difference | exclusion
  | hue | saturation | color | luminosity
deriving DecidableEq, Repr

/-- `BrushConfigs` from `brush.ts`: the serializable brush configuration. -/
structure BrushConfigs where
  type : BrushType
  color : ℕ
  alpha : ℚ
  size : ℚ
  cap : BrushLineCap
  join : BrushLineJoin
  blendMode : BrushBlendMode
deriving DecidableEq, Repr

/-- `BrushHistory` from `brush.ts`: one stroke, a config snapshot plus the
ordered recorded points. -/
structure BrushHistory where
  configs : BrushConfigs
  points : List TimePoint
deriving DecidableEq, Repr

namespace BrushHistory

/-- `addPoint(point)`: `this.points.push(point)`. -/
def addPoint (h : BrushHistory) (point : TimePoint) : BrushHistory :=
  { h with points := h.points ++ [point] }

/-- `get current()`: `points[points.length - 1]` (undefined on an empty
sequence in the source; the callers guard all accesses). -/
def current (h : BrushHistory) : TimePoint :=
  h.points.getLast?.getD default

/-- `get count()`: `points.length`. -/
def count (h : BrushHistory) : ℕ :=
  h.points.length

/-- `get valid()`: `points.length > 2`. -/
def valid (h : BrushHistory) : Bool :=
  h.points.length > 2

/-- `clone()`: builds a fresh `BrushHistory` copying every config field and
the point array (`[...this.points]`). -/
def clone (h : BrushHistory) : BrushHistory :=
  { configs :=
      { alpha := h.configs.alpha
        blendMode := h.configs.blendMode
        cap := h.configs.cap
        color := h.configs.color
        join := h.configs.join
        size := h.configs.size
        type := h.configs.type }
    points := h.points }

theorem clone_eq (h : BrushHistory) : clone h = h := rfl

end BrushHistory

/-- Exported history record (`PaperHistory` in `paper`): canvas width, height
and the list of strokes. -/
structure PaperHistory where
  width : ℕ
  height : ℕ
  histories : List BrushHistory
deriving DecidableEq, Repr

/-- The history-carrying part of the `Paper` state: image dimensions, the
committed stack `histories` and the redo stack `redoHistories`. -/
structure PaperDoc where
  width : ℕ
  height : ℕ
  histories : List BrushHistory
  redoHistories : List BrushHistory
deriving DecidableEq, Repr

namespace PaperDoc

/-- `get canUndo()`: `histories.length > 0`. -/
def canUndo (p : PaperDoc) : Bool :=
  p.histories.length > 0

/-- `get canRedo()`: `redoHistories.length > 0`. -/
def canRedo (p : PaperDoc) : Bool :=
  p.redoHistories.length > 0

/-- `undo()`: pops the tail of `histories` onto `redoHistories`, returns
whether it succeeded (JS `Array.pop` takes from the end). -/
def undo (p : PaperDoc) : Bool × PaperDoc :=
  if p.canUndo then
    match p.histories.getLast? with
    | some item =>
        (true, { p with
            histories := p.histories.dropLast
            redoHistories := p.redoHistories ++ [item] })
    | none => (false, p)
  else (false, p)

/-- `redo()`: pops the tail of `redoHistories` back onto `histories`. -/
def redo (p : PaperDoc) : Bool × PaperDoc :=
  if p.canRedo then
    match p.redoHistories.getLast? with
    | some item =>
        (true, { p with
            histories := p.histories ++ [item]
            redoHistories := p.redoHistories.dropLast })
    | none => (false, p)
  else (false, p)

/-- `exportHistory()`: width, height and a `clone()` of every stroke. -/
def exportHistory (p : PaperDoc) : PaperHistory :=
  { width := p.width
    height := p.height
    histories := p.histories.map BrushHistory.clone }

end PaperDoc

/-- The constructor's history intake: `histories = history?.histories || []`,
then the entries are discarded when the recorded dimensions disagree with the
image (`history.width !== this.width || history.height !== this.height`). -/
def initHistories (history : Option PaperHistory) (width height : ℕ) :
    List BrushHistory :=
  match history with
  | none => []
  | some h => if h.width ≠ width ∨ h.height ≠ height then [] else h.histories

/-- The per-variant move-filter of the brushes
(`MarkingBrush.canDraw`/`EraserBrush.canDraw`):
`current.distance(prev) >= Math.max(strokeSize / 4, 2)` for the marking brush
and `>= Math.max(strokeSize / 8, 2)` for the eraser. -/
def canDraw (configs : BrushConfigs) (prev current : TimePoint) : Prop :=
  match configs.type with
  | .marking =>
      Real.sqrt ((current.distSq prev : ℚ) : ℝ) ≥
        ((max (configs.size / 4) 2 : ℚ) : ℝ)
  | .eraser =>
      Real.sqrt ((current.distSq prev : ℚ) : ℝ) ≥
        ((max (configs.size / 8) 2 : ℚ) : ℝ)

theorem canDraw_iff_sq (configs : BrushConfigs) (prev current : TimePoint) :
    canDraw configs prev current ↔
      (if configs.type = .marking then max (configs.size / 4) 2
        else max (configs.size / 8) 2) ^ 2 ≤ current.distSq prev := by
  have h2 : ∀ t : ℚ, 2 ≤ t → ∀ q : ℚ,
      (((t : ℚ) : ℝ) ≤ Real.sqrt ((q : ℚ) : ℝ) ↔ t ^ 2 ≤ q) := by
    intro t ht q
    have htR : (0 : ℝ) < (t : ℚ) := by
      have : (0 : ℚ) < t := lt_of_lt_of_le (by norm_num) ht
      exact_mod_cast this
    rw [Real.le_sqrt' htR]
    constructor
    · intro h
      have : ((t ^ 2 : ℚ) : ℝ) ≤ ((q : ℚ) : ℝ) := by push_cast; push_cast at h; linarith
      exact_mod_cast this
    · intro h
      have : ((t ^ 2 : ℚ) : ℝ) ≤ ((q : ℚ) : ℝ) := by exact_mod_cast h
      push_cast at this ⊢
      linarith
  unfold canDraw
  rcases hty : configs.type with _ | _ <;> simp only [hty] <;> simp only [reduceCtorEq, if_pos rfl, if_neg, reduceIte]
  · exact h2 (max (configs.size / 4) 2) (le_max_right _ _) _
  · exact h2 (max (configs.size / 8) 2) (le_max_right _ _) _

instance (configs : BrushConfigs) (prev current : TimePoint) :
    Decidable (canDraw configs prev current) :=
  decidable_of_iff' _ (canDraw_iff_sq configs prev current)

/-- The state of a `PathBrush`: its configuration plus the in-progress
stroke `_history` (`undefined` between gestures). -/
structure PathBrushState where
  configs : BrushConfigs
  hist : Option BrushHistory
deriving DecidableEq, Repr

namespace PathBrushState

/-- `toConfigs()`: a copy (`{...this.configs}`) of the configuration. -/
def toConfigs (b : PathBrushState) : BrushConfigs :=
  b.configs

/-- `PathBrush.drawDown(point)`: starts a fresh `BrushHistory` from
`toConfigs()` and appends the point. -/
def drawDown (b : PathBrushState) (point : TimePoint) : PathBrushState :=
  { b with hist := some (BrushHistory.addPoint ⟨b.toConfigs, []⟩ point) }

/-- `PathBrush.drawMove(point)`: skips the point when the stroke already has
more than one point and `canDraw(history.current, point)` rejects it;
otherwise appends it (the incremental segment rendering is modelled
separately by the draw-call extraction). -/
def drawMove (b : PathBrushState) (point : TimePoint) : PathBrushState :=
  match b.hist with
  | none => b
  | some history =>
      if history.count > 1 ∧ ¬ canDraw b.configs history.current point then b
      else { b with hist := some (history.addPoint point) }

/-- `PathBrush.drawUp()`: when the in-progress stroke is valid, appends a
duplicate of its last point (and renders the closing segment); otherwise it
returns leaving `_history` untouched. -/
def drawUp (b : PathBrushState) : PathBrushState :=
  match b.hist with
  | none => b
  | some history =>
      if history.valid then
        { b with hist := some (history.addPoint history.current) }
      else b

/-- `PathBrush.cleanHistory()`: returns the in-progress stroke (if any) and
clears it. -/
def cleanHistory (b : PathBrushState) : Option BrushHistory × PathBrushState :=
  (b.hist, { b with hist := none })

end PathBrushState

/-- The draw-mode branch of `Paper.onTouchEndProxy`: `brush.drawUp(canvas)`,
then `painter.cleanHistory()`; when a stroke is returned it is pushed onto
`histories` and `redoHistories` is emptied (`splice(0)`). Returns the brush
state, the committed stack and the redo stack. -/
def onTouchEndDraw (b : PathBrushState)
    (histories redoHistories : List BrushHistory) :
    PathBrushState × List BrushHistory × List BrushHistory :=
  let b1 := b.drawUp
  let hb := b1.cleanHistory
  match hb.1 with
  | none => (hb.2, histories, redoHistories)
  | some history => (hb.2, histories ++ [history], [])

/-- One painted quadratic segment from `PathBrush.draw`: the brush
configuration applied via `applyCanvas` plus the curve from
`p0 = middle(early, prev)` through control point `p1 = prev` to
`p2 = middle(prev, current)`. -/
structure DrawCall where
  configs : BrushConfigs
  p0 : TimePoint
  p1 : TimePoint
  p2 : TimePoint
deriving DecidableEq, Repr

/-- `PathBrush.draw(canvas, early, prev, current)` as the draw call it
emits. -/
def pathBrushDraw (configs : BrushConfigs) (early prev current : TimePoint) :
    DrawCall :=
  { configs := configs
    p0 := TimePoint.middle early prev
    p1 := prev
    p2 := TimePoint.middle prev current }

/-- The inner loop of `Paper.redraw` for one history entry:
`for (let i = 2; i < item.points.length; i++) draw(points[i-2], points[i-1], points[i])`. -/
def strokeCalls (item : BrushHistory) : List DrawCall :=
  (List.range item.points.length).filterMap fun i =>
    if 2 ≤ i then
      some (pathBrushDraw item.configs
        (item.points.getD (i - 2) default)
        (item.points.getD (i - 1) default)
        (item.points.getD i default))
    else none

/-- `Paper.redraw`: clears the raster then replays every valid history entry
(`if (!item.valid) continue`) through a brush fresh from its configs; the
resulting raster is characterized by the ordered list of emitted draw
calls. -/
def redrawCalls (histories : List BrushHistory) : List DrawCall :=
  histories.flatMap fun item => if item.valid then strokeCalls item else []

/-- `Offset` from the `Paper` file. -/
structure Offset where
  x : ℚ
  y : ℚ
deriving DecidableEq, Repr

/-- `Position` from the `Paper` file: base centering offsets and fit scale
(`ox`, `oy`, `oScale`), the user pan (`x`, `y`) and zoom (`scale`), and the
fitted content size (`width`, `height`). -/
structure Position where
  ox : ℚ
  oy : ℚ
  oScale : ℚ
  x : ℚ
  y : ℚ
  scale : ℚ
  width : ℚ
  height : ℚ
deriving DecidableEq, Repr

/-- The part of the `Paper` state that the bounds-correction reads: the root
container size, the `Position`, the configured `maxScale` and the last pinch
focus. -/
structure PaperView where
  rootWidth : ℚ
  rootHeight : ℚ
  maxScale : ℚ
  position : Position
  lastScaleFocus : Offset
deriving DecidableEq, Repr

/-- `Paper.computeScaleOffset(focus, scale)`: the pan delta that keeps the
focus point visually fixed while scaling by `scale`. -/
def computeScaleOffset (position : Position) (focus : Offset) (scale : ℚ) :
    Offset :=
  let px := focus.x - (position.x + position.ox)
  let py := focus.y - (position.y + position.oy)
  { x := px - px * scale, y := py - py * scale }

/-- `Paper.overBound()` reduced to the `(ex, ey, es)` target it passes to
`animateTo`: scale clamped into `[1, maxScale]`; when the clamped scale stays
at `1` the target is `(0, 0, 1)`, otherwise the zoom-anchored offset is
clamped into the interval spanned by `0` and the per-axis slack
`root − fitted*scaleTo`. -/
def overBoundTarget (st : PaperView) : ℚ × ℚ × ℚ :=
  let scaleTo := clampNumber st.position.scale 1 st.maxScale
  if scaleTo ≤ 1 then (0, 0, 1)
  else
    let offset := computeScaleOffset st.position st.lastScaleFocus
      (scaleTo / st.position.scale)
    let offx := offset.x + (st.position.x + st.position.ox)
    let offy := offset.y + (st.position.y + st.position.oy)
    let cx := st.rootWidth - st.position.width * scaleTo
    let cy := st.rootHeight - st.position.height * scaleTo
    (clampNumber offx (min cx 0) (max cx 0) - st.position.ox,
     clampNumber offy (min cy 0) (max cy 0) - st.position.oy,
     scaleTo)

/-- The `duration <= 0` test of `Paper.animateTo`, with
`duration = Math.max(clamp(dist*4, 0, maxDuration), clamp(|es-ss|*1000, 0, maxDuration))`
and `dist = Math.sqrt((ex-sx)^2 + (ey-sy)^2)`. -/
def durLE0 (sx sy ss ex ey es maxDuration : ℚ) : Prop :=
  max (min (max (Real.sqrt ((((ex - sx) ^ 2 + (ey - sy) ^ 2 : ℚ) : ℝ)) * 4) 0)
        ((maxDuration : ℚ) : ℝ))
      (min (max (((|es - ss| * 1000 : ℚ) : ℝ)) 0) ((maxDuration : ℚ) : ℝ)) ≤ 0

/-- The `duration < 16` test of `Paper.animateTo` (same duration
expression). -/
def durLT16 (sx sy ss ex ey es maxDuration : ℚ) : Prop :=
  max (min (max (Real.sqrt ((((ex - sx) ^ 2 + (ey - sy) ^ 2 : ℚ) : ℝ)) * 4) 0)
        ((maxDuration : ℚ) : ℝ))
      (min (max (((|es - ss| * 1000 : ℚ) : ℝ)) 0) ((maxDuration : ℚ) : ℝ)) < 16

theorem durLE0_iff (sx sy ss ex ey es maxDuration : ℚ) :
    durLE0 sx sy ss ex ey es maxDuration ↔
      (((ex - sx) ^ 2 + (ey - sy) ^ 2 ≤ 0 ∨ maxDuration ≤ 0) ∧
        (|es - ss| * 1000 ≤ 0 ∨ maxDuration ≤ 0)) := by
  unfold durLE0
  have hq : (0 : ℝ) ≤ (((ex - sx) ^ 2 + (ey - sy) ^ 2 : ℚ) : ℝ) := by
    have : (0 : ℚ) ≤ (ex - sx) ^ 2 + (ey - sy) ^ 2 := by positivity
    exact_mod_cast this
  have hdt : (0 : ℝ) ≤ Real.sqrt (((ex - sx) ^ 2 + (ey - sy) ^ 2 : ℚ) : ℝ) * 4 := by
    have := Real.sqrt_nonneg ((((ex - sx) ^ 2 + (ey - sy) ^ 2 : ℚ) : ℝ))
    linarith
  have hds : (0 : ℝ) ≤ ((|es - ss| * 1000 : ℚ) : ℝ) := by
    have : (0 : ℚ) ≤ |es - ss| * 1000 := by positivity
    exact_mod_cast this
  rw [max_le_iff]
  constructor
  · rintro ⟨h1, h2⟩
    rw [min_le_iff] at h1 h2
    constructor
    · rcases h1 with h1 | h1
      · left
        have hsq : Real.sqrt (((ex - sx) ^ 2 + (ey - sy) ^ 2 : ℚ) : ℝ) ≤ 0 := by
          have hm := le_max_left
            (Real.sqrt (((ex - sx) ^ 2 + (ey - sy) ^ 2 : ℚ) : ℝ) * 4) (0 : ℝ)
          have h4 : Real.sqrt (((ex - sx) ^ 2 + (ey - sy) ^ 2 : ℚ) : ℝ) * 4 ≤ 0 := le_trans hm h1
          linarith
        have := Real.sqrt_eq_zero'.mp
          (le_antisymm hsq (Real.sqrt_nonneg _))
        exact_mod_cast this
      · right; exact_mod_cast h1
    · rcases h2 with h2 | h2
      · left
        have hm := le_max_left ((|es - ss| * 1000 : ℚ) : ℝ) (0 : ℝ)
        have : ((|es - ss| * 1000 : ℚ) : ℝ) ≤ 0 := le_trans hm h2
        exact_mod_cast this
      · right; exact_mod_cast h2
  · rintro ⟨h1, h2⟩
    constructor
    · rw [min_le_iff]
      rcases h1 with h1 | h1
      · left
        have h1' : ((ex - sx) ^ 2 + (ey - sy) ^ 2 : ℚ) = 0 :=
          le_antisymm h1 (by positivity)
        have : Real.sqrt (((ex - sx) ^ 2 + (ey - sy) ^ 2 : ℚ) : ℝ) = 0 := by
          rw [show ((((ex - sx) ^ 2 + (ey - sy) ^ 2 : ℚ)) : ℝ) = 0 by exact_mod_cast h1']
          exact Real.sqrt_zero
        rw [max_le_iff]
        constructor
        · rw [this]; norm_num
        · norm_num
      · right; exact_mod_cast h1
    · rw [min_le_iff]
      rcases h2 with h2 | h2
      · left
        rw [max_le_iff]
        constructor
        · exact_mod_cast h2
        · norm_num
      · right; exact_mod_cast h2

instance (sx sy ss ex ey es maxDuration : ℚ) :
    Decidable (durLE0 sx sy ss ex ey es maxDuration) :=
  decidable_of_iff' _ (durLE0_iff sx sy ss ex ey es maxDuration)

theorem durLT16_iff (sx sy ss ex ey es maxDuration : ℚ) :
    durLT16 sx sy ss ex ey es maxDuration ↔
      (((ex - sx) ^ 2 + (ey - sy) ^ 2 < 16 ∨ maxDuration < 16) ∧
        (|es - ss| * 1000 < 16 ∨ maxDuration < 16)) := by
  unfold durLT16
  have hdtlt : Real.sqrt ((((ex - sx) ^ 2 + (ey - sy) ^ 2 : ℚ)) : ℝ) * 4 < 16 ↔
      ((ex - sx) ^ 2 + (ey - sy) ^ 2 : ℚ) < 16 := by
    constructor
    · intro h
      have h4 : Real.sqrt ((((ex - sx) ^ 2 + (ey - sy) ^ 2 : ℚ)) : ℝ) < 4 := by linarith
      have hc := (Real.sqrt_lt' (by norm_num : (0 : ℝ) < 4)).mp h4
      have h16 : ((((ex - sx) ^ 2 + (ey - sy) ^ 2 : ℚ)) : ℝ) < 16 := by
        calc ((((ex - sx) ^ 2 + (ey - sy) ^ 2 : ℚ)) : ℝ) < 4 ^ 2 := hc
        _ = 16 := by norm_num
      exact_mod_cast h16
    · intro h
      have h16 : ((((ex - sx) ^ 2 + (ey - sy) ^ 2 : ℚ)) : ℝ) < 4 ^ 2 := by
        have hr : ((((ex - sx) ^ 2 + (ey - sy) ^ 2 : ℚ)) : ℝ) < 16 := by exact_mod_cast h
        calc ((((ex - sx) ^ 2 + (ey - sy) ^ 2 : ℚ)) : ℝ) < 16 := hr
        _ = 4 ^ 2 := by norm_num
      have h4 := (Real.sqrt_lt' (by norm_num : (0 : ℝ) < 4)).mpr h16
      linarith
  rw [max_lt_iff]
  have hds : (0 : ℝ) ≤ ((|es - ss| * 1000 : ℚ) : ℝ) := by
    have : (0 : ℚ) ≤ |es - ss| * 1000 := by positivity
    exact_mod_cast this
  have hdt0 : (0 : ℝ) ≤ Real.sqrt ((((ex - sx) ^ 2 + (ey - sy) ^ 2 : ℚ)) : ℝ) * 4 := by
    have := Real.sqrt_nonneg ((((ex - sx) ^ 2 + (ey - sy) ^ 2 : ℚ)) : ℝ)
    linarith
  rw [max_eq_left hdt0, max_eq_left hds, min_lt_iff, min_lt_iff]
  constructor
  · rintro ⟨h1, h2⟩
    refine ⟨?_, ?_⟩
    · rcases h1 with h1 | h1
      · left; exact hdtlt.mp h1
      · right; exact_mod_cast h1
    · rcases h2 with h2 | h2
      · left; exact_mod_cast h2
      · right; exact_mod_cast h2
  · rintro ⟨h1, h2⟩
    refine ⟨?_, ?_⟩
    · rcases h1 with h1 | h1
      · left; exact hdtlt.mpr h1
      · right; exact_mod_cast h1
    · rcases h2 with h2 | h2
      · left; exact_mod_cast h2
      · right; exact_mod_cast h2

instance (sx sy ss ex ey es maxDuration : ℚ) :
    Decidable (durLT16 sx sy ss ex ey es maxDuration) :=
  decidable_of_iff' _ (durLT16_iff sx sy ss ex ey es maxDuration)

/-- The three possible behaviors of `Paper.animateTo(ex, ey, es, maxDuration)`:
return without touching the position (`duration <= 0`), assign the target
instantly (`duration < 16`), or hand a frame-interpolating animation to the
controller. -/
inductive AnimOutcome where
  | noChange
  | instant (ex ey es : ℚ)
  | animated (ex ey es : ℚ)
deriving DecidableEq, Repr

/-- `Paper.animateTo` dispatch: the branch taken for start position
`(sx, sy, ss)` and target `(ex, ey, es)`. -/
def animateToResult (sx sy ss ex ey es maxDuration : ℚ) : AnimOutcome :=
  if durLE0 sx sy ss ex ey es maxDuration then .noChange
  else if durLT16 sx sy ss ex ey es maxDuration then .instant ex ey es
  else .animated ex ey es

/-- The zoom scale once the transition started by `animateTo` has run to
completion: the `noChange` branch keeps the current scale, the `instant`
branch assigns the target at once, and a completed animation's final frame
(`value = 1`) assigns `ss + (es - ss) * 1 = es`. -/
def completedScale (sx sy ss ex ey es maxDuration : ℚ) : ℚ :=
  match animateToResult sx sy ss ex ey es maxDuration with
  | .noChange => ss
  | .instant _ _ s => s
  | .animated _ _ s => s

/-- The zoom scale after `Paper.overBound()`'s corrective transition
completes (`animateTo` is called with `maxDuration = 200`). -/
def overBoundCompletedScale (st : PaperView) : ℚ :=
  completedScale st.position.x st.position.y st.position.scale
    (overBoundTarget st).1 (overBoundTarget st).2.1 (overBoundTarget st).2.2 200

/-- JS `Number.prototype.toString(16)` digit list for a natural number:
most-significant first, lowercase (`Nat.digitChar` yields `'0'`–`'9'`,
`'a'`–`'f'`). -/
def natHexChars (n : ℕ) : List Char :=
  if _h : n < 16 then [Nat.digitChar n]
  else natHexChars (n / 16) ++ [Nat.digitChar (n % 16)]
termination_by n
decreasing_by
  exact Nat.div_lt_self (by omega) (by norm_num)

/-- JS `toString(16)` for a natural number, as a string. -/
def natToHexString (n : ℕ) : String :=
  ⟨natHexChars n⟩

/-- JS `toString(16)` for an integer: negative values render with a leading
minus sign. -/
def intToHexString (i : ℤ) : String :=
  if i < 0 then "-" ++ natToHexString i.natAbs else natToHexString i.toNat

/-- The color-padding loop of `Brush.strokeStyle`:
`while (color.length < 6) color = '0' + color`. -/
def padColorLoop (color : String) : String :=
  if color.length < 6 then padColorLoop ("0" ++ color) else color
termination_by 6 - color.length
decreasing_by
  have h1 : ("0" ++ color).length = 1 + color.length := by
    rw [String.length_append]
    rfl
  omega

/-- The (buggy) alpha-padding loop of `Brush.strokeStyle`:
`while (alpha.length < 2) alpha = '0' + color` — note it prepends `'0'` to
the COLOR string, not to the alpha string.  The JS loop re-evaluates the same
assignment, so it reaches a fixed point after at most two iterations whenever
the color string is non-empty (it always is: it was padded to six
characters); the fuel argument makes that explicit. -/
def padAlphaLoop (color : String) : ℕ → String → String
  | 0, alpha => alpha
  | fuel + 1, alpha =>
      if alpha.length < 2 then padAlphaLoop color fuel ("0" ++ color)
      else alpha

/-- `Brush.strokeStyle`: `'#' + color + alpha` where `color` is the hex color
padded to six characters and `alpha` comes from
`Math.floor(alpha * 255).toString(16)` run through the padding loop above. -/
def strokeStyle (configs : BrushConfigs) : String :=
  let color := padColorLoop (natToHexString configs.color)
  let alpha := padAlphaLoop color 2 (intToHexString ⌊configs.alpha * 255⌋)
  "#" ++ color ++ alpha

/-- The zero-padded lowercase hex rendering named by the specification: the
hex digits of `n` left-padded with `'0'` to `width` characters. -/
def specZeroPaddedHex (width : ℕ) (n : ℕ) : String :=
  ⟨List.replicate (width - (natHexChars n).length) '0' ++ natHexChars n⟩

/-- `AnimationHolder` from the `Paper` file; the three callbacks are abstract
host-side actions, represented by an arbitrary type `κ`. -/
structure AnimationHolder (κ : Type) where
  frameCallback : κ
  completedCallback : Option κ
  canceledCallback : Option κ
  duration : ℚ
  tick : ℚ
  canceled : Bool
deriving DecidableEq, Repr

/-- `AnimationController`: at most one live `AnimationHolder`. -/
structure AnimationController (κ : Type) where
  holder : Option (AnimationHolder κ)
deriving DecidableEq, Repr

namespace AnimationController

/-- `get animating()`: `holder !== undefined && holder !== null`. -/
def animating {κ : Type} (c : AnimationController κ) : Bool :=
  c.holder.isSome

/-- `execute(duration, frameCallback, completedCallback, canceledCallback)`:
returns unchanged when an animation is live, otherwise installs a fresh
holder stamped with the current tick (`performance.now()`, supplied by the
environment). -/
def execute {κ : Type} (c : AnimationController κ) (duration : ℚ)
    (frameCallback : κ) (completedCallback canceledCallback : Option κ)
    (now : ℚ) : AnimationController κ :=
  if c.animating then c
  else
    { holder := some
        { frameCallback := frameCallback
          completedCallback := completedCallback
          canceledCallback := canceledCallback
          duration := duration
          tick := now
          canceled := false } }

end AnimationController

theorem clampNumber_le_hi (value lo hi : ℚ) : clampNumber value lo hi ≤ hi :=
  min_le_right _ _

theorem lo_le_clampNumber (value lo hi : ℚ) (h : lo ≤ hi) :
    lo ≤ clampNumber value lo hi :=
  le_min (le_max_right _ _) h

/-- Shared fixture: the default configuration of `new MarkingBrush()`. -/
def markingDefaults : BrushConfigs :=
  { type := .marking
    alpha := 1
    blendMode := .sourceOver
    cap := .round
    color := 0x0E9C4B
    join := .round
    size := 8 }

/-- Shared fixture: a single concrete touch point. -/
def examplePoint : TimePoint := ⟨1, 2, 3⟩

theorem completedScale_200 (sx sy ss ex ey es : ℚ) :
    completedScale sx sy ss ex ey es 200 = es := by
  unfold completedScale animateToResult
  by_cases h0 : durLE0 sx sy ss ex ey es 200
  · rw [if_pos h0]
    have h := (durLE0_iff sx sy ss ex ey es 200).mp h0
    rcases h.2 with h2 | h2
    · have habs : |es - ss| ≤ 0 := by linarith
      have : es - ss = 0 := by
        have := abs_nonneg (es - ss)
        have := abs_eq_zero.mp (le_antisymm habs this)
        exact this
      simp only []
      linarith
    · norm_num at h2
  · rw [if_neg h0]
    by_cases h16 : durLT16 sx sy ss ex ey es 200
    · rw [if_pos h16]
    · rw [if_neg h16]

theorem overBoundTarget_scale (st : PaperView) :
    (overBoundTarget st).2.2 =
      if clampNumber st.position.scale 1 st.maxScale ≤ 1 then 1
      else clampNumber st.position.scale 1 st.maxScale := by
  unfold overBoundTarget
  by_cases h : clampNumber st.position.scale 1 st.maxScale ≤ 1
  · rw [if_pos h, if_pos h]
  · rw [if_neg h, if_neg h]

/-- C3: for every state whose committed stack is non-empty, `undo()` then
`redo()` both return `true` and the committed stack ends up with exactly its
prior contents, same strokes in the same order. -/
theorem undo_redo_roundtrip (p : PaperDoc) (hne : p.histories ≠ []) :
    (p.undo).1 = true ∧
    ((p.undo).2.redo).1 = true ∧
    ((p.undo).2.redo).2.histories = p.histories := by
  rcases List.eq_nil_or_concat' p.histories with h | ⟨L, a, hL⟩
  · exact absurd h hne
  · have hcanUndo : p.canUndo = true := by
      unfold PaperDoc.canUndo
      rw [hL]
      simp
    have hundo : p.undo =
        (true, { p with
            histories := p.histories.dropLast
            redoHistories := p.redoHistories ++ [a] }) := by
      unfold PaperDoc.undo
      rw [if_pos hcanUndo, hL]
      simp
    refine ⟨by rw [hundo], ?_, ?_⟩
    · rw [hundo]
      unfold PaperDoc.redo PaperDoc.canRedo
      simp
    · rw [hundo]
      unfold PaperDoc.redo PaperDoc.canRedo
      simp
      rw [hL]
      simp

/-- Witness for C3 at a concrete one-element committed stack. -/
theorem undo_redo_roundtrip_witness :
    ((⟨10, 20, [⟨markingDefaults, [examplePoint]⟩], []⟩ : PaperDoc).histories ≠ []) ∧
    ((⟨10, 20, [⟨markingDefaults, [examplePoint]⟩], []⟩ : PaperDoc).undo.1 = true ∧
      ((⟨10, 20, [⟨markingDefaults, [examplePoint]⟩], []⟩ : PaperDoc).undo.2.redo).1 = true ∧
      ((⟨10, 20, [⟨markingDefaults, [examplePoint]⟩], []⟩ : PaperDoc).undo.2.redo).2.histories =
        (⟨10, 20, [⟨markingDefaults, [examplePoint]⟩], []⟩ : PaperDoc).histories) :=
  ⟨by decide, undo_redo_roundtrip _ (by decide)⟩

/-- C5: whenever the draw-mode touch-end commit pushes a stroke onto the
committed stack (the stack changed), the redo stack is left empty, so
`canRedo` is `false`. -/
theorem push_clears_redo (b : PathBrushState) (hs rs : List BrushHistory)
    (hpush : (onTouchEndDraw b hs rs).2.1 ≠ hs) :
    (onTouchEndDraw b hs rs).2.2 = [] ∧
    (PaperDoc.canRedo
      { width := 0, height := 0
        histories := (onTouchEndDraw b hs rs).2.1
        redoHistories := (onTouchEndDraw b hs rs).2.2 }) = false := by
  cases hb : (b.drawUp).hist with
  | none =>
      exfalso
      apply hpush
      simp [onTouchEndDraw, PathBrushState.cleanHistory, hb]
  | some h =>
      constructor
      · simp [onTouchEndDraw, PathBrushState.cleanHistory, hb]
      · simp [onTouchEndDraw, PathBrushState.cleanHistory, hb, PaperDoc.canRedo]

/-- Witness for C5: committing a concrete in-progress stroke after a prior
undo leaves `canRedo` false. -/
theorem push_clears_redo_witness :
    ((onTouchEndDraw ⟨markingDefaults, some ⟨markingDefaults, [examplePoint]⟩⟩
        [] [⟨markingDefaults, [examplePoint]⟩]).2.1 ≠ []) ∧
    ((onTouchEndDraw ⟨markingDefaults, some ⟨markingDefaults, [examplePoint]⟩⟩
        [] [⟨markingDefaults, [examplePoint]⟩]).2.2 = [] ∧
      (PaperDoc.canRedo
        { width := 0, height := 0
          histories := (onTouchEndDraw ⟨markingDefaults, some ⟨markingDefaults, [examplePoint]⟩⟩
            [] [⟨markingDefaults, [examplePoint]⟩]).2.1
          redoHistories := (onTouchEndDraw ⟨markingDefaults, some ⟨markingDefaults, [examplePoint]⟩⟩
            [] [⟨markingDefaults, [examplePoint]⟩]).2.2 }) = false) :=
  ⟨by decide, push_clears_redo _ _ _ (by decide)⟩

/-- C8: calling `execute` on the animation controller while an animation is
live is a no-op — the controller state, including the live holder with its
callbacks and timing, is returned unchanged. -/
theorem execute_noop_when_animating {κ : Type} (c : AnimationController κ)
    (duration : ℚ) (frameCallback : κ)
    (completedCallback canceledCallback : Option κ) (now : ℚ)
    (h : c.animating = true) :
    c.execute duration frameCallback completedCallback canceledCallback now = c := by
  unfold AnimationController.execute
  rw [if_pos h]

/-- Witness for C8 at a concrete live controller (callbacks modelled by
numeric tokens). -/
theorem execute_noop_when_animating_witness :
    ((⟨some ⟨7, none, some 9, 150, 3, false⟩⟩ : AnimationController ℕ).animating = true) ∧
    ((⟨some ⟨7, none, some 9, 150, 3, false⟩⟩ : AnimationController ℕ).execute
        200 11 none none 5 =
      (⟨some ⟨7, none, some 9, 150, 3, false⟩⟩ : AnimationController ℕ)) :=
  ⟨by decide, execute_noop_when_animating _ 200 11 none none 5 (by decide)⟩

/-- C4: after a gesture ends with zero touches and the bounds-correction
transition completes, the zoom scale lies in `[1, maxScale]`, where
`maxScale` is the construction parameter clamped into `[1.5, 3]`. -/
theorem overBound_scale_in_range (st : PaperView) (m : ℚ)
    (hm : st.maxScale = clampNumber m (3/2) 3) :
    1 ≤ overBoundCompletedScale st ∧ overBoundCompletedScale st ≤ st.maxScale := by
  have hms : (3/2 : ℚ) ≤ st.maxScale := by
    rw [hm]
    exact lo_le_clampNumber m (3/2) 3 (by norm_num)
  have hms1 : (1 : ℚ) ≤ st.maxScale := by linarith
  have hcs : overBoundCompletedScale st = (overBoundTarget st).2.2 := by
    unfold overBoundCompletedScale
    exact completedScale_200 _ _ _ _ _ _
  rw [hcs, overBoundTarget_scale st]
  by_cases h : clampNumber st.position.scale 1 st.maxScale ≤ 1
  · rw [if_pos h]
    exact ⟨le_refl 1, hms1⟩
  · rw [if_neg h]
    exact ⟨lo_le_clampNumber _ _ _ hms1, clampNumber_le_hi _ _ _⟩

/-- Shared fixture: a post-pinch view state — container 100×100, fitted
content 40×100 (centering offset 30), pinch left the zoom at 4 with last
focus `(50, 0)` and pan `(-10, 0)`, `maxScale = 2`. -/
def pinchedView : PaperView :=
  { rootWidth := 100
    rootHeight := 100
    maxScale := 2
    position :=
      { ox := 30, oy := 0, oScale := 2/5, x := -10, y := 0, scale := 4,
        width := 40, height := 100 }
    lastScaleFocus := { x := 50, y := 0 } }

/-- Witness for C4 at the concrete pinched state with construction
parameter `2`. -/
theorem overBound_scale_in_range_witness :
    (pinchedView.maxScale = clampNumber 2 (3/2) 3) ∧
    (1 ≤ overBoundCompletedScale pinchedView ∧
      overBoundCompletedScale pinchedView ≤ pinchedView.maxScale) :=
  ⟨by norm_num [pinchedView, clampNumber, min_def, max_def],
    overBound_scale_in_range pinchedView 2
      (by norm_num [pinchedView, clampNumber, min_def, max_def])⟩

/-- C1 (counterexample): ending a draw gesture whose stroke holds a single
point pushes that one-point — hence invalid — stroke onto the committed
history, because `cleanHistory()` returns the unfinished stroke even when
`drawUp` declined to finalize it. -/
theorem invalid_stroke_pushed_counterexample :
    (onTouchEndDraw ⟨markingDefaults, some ⟨markingDefaults, [examplePoint]⟩⟩
        [] []).2.1 = [⟨markingDefaults, [examplePoint]⟩] ∧
    (⟨markingDefaults, [examplePoint]⟩ : BrushHistory).points.length ≤ 2 := by
  decide

/-- C1 (amended): on draw-mode touch-up the brush's in-progress stroke, if
any, is always pushed onto the committed history — a valid stroke first
receives a duplicate of its last point, an invalid one is pushed as-is; a
pushed stroke with two or fewer points is skipped by `redraw` and so
contributes no draw calls to the raster. -/
theorem touchEnd_pushes_any_stroke (b : PathBrushState)
    (hs rs : List BrushHistory) (h : BrushHistory)
    (hh : b.hist = some h) :
    (onTouchEndDraw b hs rs).2.1 =
      hs ++ [if h.valid then h.addPoint h.current else h] ∧
    (h.valid = false →
      redrawCalls [if h.valid then h.addPoint h.current else h] = []) := by
  by_cases hv : h.valid
  · constructor
    · simp [onTouchEndDraw, PathBrushState.drawUp, PathBrushState.cleanHistory, hh, hv]
    · intro hfalse
      rw [hv] at hfalse
      cases hfalse
  · have hv' : h.valid = false := by
      cases hval : h.valid
      · rfl
      · exact absurd hval hv
    constructor
    · simp [onTouchEndDraw, PathBrushState.drawUp, PathBrushState.cleanHistory, hh, hv']
    · intro _
      simp [redrawCalls, hv']

/-- Witness for C1 (amended) at the single-point stroke fixture. -/
theorem touchEnd_pushes_any_stroke_witness :
    ((⟨markingDefaults, some ⟨markingDefaults, [examplePoint]⟩⟩ : PathBrushState).hist =
        some ⟨markingDefaults, [examplePoint]⟩) ∧
    ((onTouchEndDraw ⟨markingDefaults, some ⟨markingDefaults, [examplePoint]⟩⟩ [] []).2.1 =
        [] ++ [if (⟨markingDefaults, [examplePoint]⟩ : BrushHistory).valid then
          BrushHistory.addPoint ⟨markingDefaults, [examplePoint]⟩
            (BrushHistory.current ⟨markingDefaults, [examplePoint]⟩)
          else ⟨markingDefaults, [examplePoint]⟩] ∧
      ((⟨markingDefaults, [examplePoint]⟩ : BrushHistory).valid = false →
        redrawCalls [if (⟨markingDefaults, [examplePoint]⟩ : BrushHistory).valid then
          BrushHistory.addPoint ⟨markingDefaults, [examplePoint]⟩
            (BrushHistory.current ⟨markingDefaults, [examplePoint]⟩)
          else ⟨markingDefaults, [examplePoint]⟩] = [])) :=
  ⟨rfl, touchEnd_pushes_any_stroke _ [] [] _ rfl⟩

theorem clamp_slack_bounds (v c : ℚ) :
    min c 0 ≤ clampNumber v (min c 0) (max c 0) ∧
    clampNumber v (min c 0) (max c 0) ≤ max c 0 ∧
    (c ≤ 0 → clampNumber v (min c 0) (max c 0) ≤ 0 ∧
      c ≤ clampNumber v (min c 0) (max c 0)) := by
  have h1 := lo_le_clampNumber v (min c 0) (max c 0) min_le_max
  have h2 := clampNumber_le_hi v (min c 0) (max c 0)
  refine ⟨h1, h2, ?_⟩
  intro hc
  have hmin : min c 0 = c := min_eq_left hc
  have hmax : max c 0 = 0 := max_eq_right hc
  constructor
  · linarith
  · linarith

/-- C2 (counterexample): at the pinched fixture the pre-clamp zoom is `4 > 1`
and the horizontal slack `100 − 40·2 = 20` is non-negative, yet the corrected
target edge position `tx + ox` is `20`, not the `0` the claim requires — and
with final zoom `2` the 80-wide content cannot cover the 100-wide
container. -/
theorem overBound_edge_counterexample :
    overBoundTarget pinchedView = (-10, 0, 2) ∧
    1 < pinchedView.position.scale ∧
    0 ≤ pinchedView.rootWidth -
      pinchedView.position.width * (overBoundTarget pinchedView).2.2 ∧
    (overBoundTarget pinchedView).1 + pinchedView.position.ox ≠ 0 := by
  have h : overBoundTarget pinchedView = (-10, 0, 2) := by
    norm_num [overBoundTarget, pinchedView, clampNumber, computeScaleOffset,
      min_def, max_def]
  refine ⟨h, by norm_num [pinchedView], ?_, ?_⟩
  · rw [h]
    norm_num [pinchedView]
  · rw [h]
    norm_num [pinchedView]

/-- C2 (amended): when bounds-correction runs with the clamped target zoom
above `1`, the target zoom is `clamp(zoomScale, 1, maxScale)` and on each
axis the target edge position (pan plus base centering offset) is clamped
into the interval spanned by the slack `container − fitted·targetZoom` and
`0`; in particular the image fully covers the container along every axis
whose slack is non-positive (when the slack is positive the edge lands
anywhere inside `[0, slack]`, not necessarily at `0`). -/
theorem overBound_target_spec (st : PaperView)
    (hs : 1 < clampNumber st.position.scale 1 st.maxScale) :
    (overBoundTarget st).2.2 = clampNumber st.position.scale 1 st.maxScale ∧
    min (st.rootWidth - st.position.width * (overBoundTarget st).2.2) 0 ≤
      (overBoundTarget st).1 + st.position.ox ∧
    (overBoundTarget st).1 + st.position.ox ≤
      max (st.rootWidth - st.position.width * (overBoundTarget st).2.2) 0 ∧
    min (st.rootHeight - st.position.height * (overBoundTarget st).2.2) 0 ≤
      (overBoundTarget st).2.1 + st.position.oy ∧
    (overBoundTarget st).2.1 + st.position.oy ≤
      max (st.rootHeight - st.position.height * (overBoundTarget st).2.2) 0 ∧
    (st.rootWidth - st.position.width * (overBoundTarget st).2.2 ≤ 0 →
      (overBoundTarget st).1 + st.position.ox ≤ 0 ∧
      st.rootWidth ≤ (overBoundTarget st).1 + st.position.ox +
        st.position.width * (overBoundTarget st).2.2) ∧
    (st.rootHeight - st.position.height * (overBoundTarget st).2.2 ≤ 0 →
      (overBoundTarget st).2.1 + st.position.oy ≤ 0 ∧
      st.rootHeight ≤ (overBoundTarget st).2.1 + st.position.oy +
        st.position.height * (overBoundTarget st).2.2) := by
  have hnot : ¬ (clampNumber st.position.scale 1 st.maxScale ≤ 1) := not_le.mpr hs
  simp only [overBoundTarget]
  rw [if_neg hnot]
  dsimp only
  have hx := clamp_slack_bounds
    ((computeScaleOffset st.position st.lastScaleFocus
        (clampNumber st.position.scale 1 st.maxScale / st.position.scale)).x +
      (st.position.x + st.position.ox))
    (st.rootWidth - st.position.width * clampNumber st.position.scale 1 st.maxScale)
  have hy := clamp_slack_bounds
    ((computeScaleOffset st.position st.lastScaleFocus
        (clampNumber st.position.scale 1 st.maxScale / st.position.scale)).y +
      (st.position.y + st.position.oy))
    (st.rootHeight - st.position.height * clampNumber st.position.scale 1 st.maxScale)
  refine ⟨rfl, ?_, ?_, ?_, ?_, ?_, ?_⟩
  · linarith [hx.1]
  · linarith [hx.2.1]
  · linarith [hy.1]
  · linarith [hy.2.1]
  · intro hcx
    obtain ⟨h1, h2⟩ := hx.2.2 hcx
    constructor
    · linarith
    · linarith
  · intro hcy
    obtain ⟨h1, h2⟩ := hy.2.2 hcy
    constructor
    · linarith
    · linarith

/-- Witness for C2 (amended) at the pinched fixture. -/
theorem overBound_target_spec_witness :
    (1 < clampNumber pinchedView.position.scale 1 pinchedView.maxScale) ∧
    ((overBoundTarget pinchedView).2.2 =
        clampNumber pinchedView.position.scale 1 pinchedView.maxScale ∧
      min (pinchedView.rootWidth -
          pinchedView.position.width * (overBoundTarget pinchedView).2.2) 0 ≤
        (overBoundTarget pinchedView).1 + pinchedView.position.ox ∧
      (overBoundTarget pinchedView).1 + pinchedView.position.ox ≤
        max (pinchedView.rootWidth -
          pinchedView.position.width * (overBoundTarget pinchedView).2.2) 0 ∧
      min (pinchedView.rootHeight -
          pinchedView.position.height * (overBoundTarget pinchedView).2.2) 0 ≤
        (overBoundTarget pinchedView).2.1 + pinchedView.position.oy ∧
      (overBoundTarget pinchedView).2.1 + pinchedView.position.oy ≤
        max (pinchedView.rootHeight -
          pinchedView.position.height * (overBoundTarget pinchedView).2.2) 0 ∧
      (pinchedView.rootWidth -
          pinchedView.position.width * (overBoundTarget pinchedView).2.2 ≤ 0 →
        (overBoundTarget pinchedView).1 + pinchedView.position.ox ≤ 0 ∧
        pinchedView.rootWidth ≤ (overBoundTarget pinchedView).1 +
          pinchedView.position.ox +
          pinchedView.position.width * (overBoundTarget pinchedView).2.2) ∧
      (pinchedView.rootHeight -
          pinchedView.position.height * (overBoundTarget pinchedView).2.2 ≤ 0 →
        (overBoundTarget pinchedView).2.1 + pinchedView.position.oy ≤ 0 ∧
        pinchedView.rootHeight ≤ (overBoundTarget pinchedView).2.1 +
          pinchedView.position.oy +
          pinchedView.position.height * (overBoundTarget pinchedView).2.2)) :=
  ⟨by norm_num [pinchedView, clampNumber, min_def, max_def],
    overBound_target_spec pinchedView
      (by norm_num [pinchedView, clampNumber, min_def, max_def])⟩

/-- C6: `drawMove(p)` appends the incoming point to the active stroke exactly
when the stroke has fewer than 2 points or the variant's minimum-travel
policy (`canDraw`: distance at least `max(size/4, 2)` for the marking brush,
`max(size/8, 2)` for the eraser) accepts it; a rejected point leaves the
brush state — and hence the stroke's point sequence — unchanged. -/
theorem drawMove_accept_iff (b : PathBrushState) (h : BrushHistory)
    (p : TimePoint) (hh : b.hist = some h) :
    ((b.drawMove p).hist = some (h.addPoint p) ↔
      (h.count < 2 ∨ canDraw b.configs h.current p)) ∧
    (¬ (h.count < 2 ∨ canDraw b.configs h.current p) → b.drawMove p = b) := by
  by_cases hc : h.count > 1 ∧ ¬ canDraw b.configs h.current p
  · have hrej : b.drawMove p = b := by
      simp only [PathBrushState.drawMove, hh]
      rw [if_pos hc]
    have hnor : ¬ (h.count < 2 ∨ canDraw b.configs h.current p) := by
      push_neg
      exact ⟨by omega, hc.2⟩
    constructor
    · rw [hrej, hh]
      constructor
      · intro heq
        exfalso
        have hhp := Option.some.inj heq
        have hlen := congrArg (fun x => x.points.length) hhp
        simp [BrushHistory.addPoint] at hlen
      · intro hor
        exact absurd hor hnor
    · intro _
      exact hrej
  · have hacc : (b.drawMove p).hist = some (h.addPoint p) := by
      simp only [PathBrushState.drawMove, hh]
      rw [if_neg hc]
    have hor : h.count < 2 ∨ canDraw b.configs h.current p := by
      rcases not_and_or.mp hc with h1 | h2
      · left
        omega
      · right
        exact not_not.mp h2
    refine ⟨iff_of_true hacc hor, ?_⟩
    intro hno
    exact absurd hor hno

/-- Witness for C6: the first move point on a fresh stroke is always
accepted. -/
theorem drawMove_accept_iff_witness :
    ((⟨markingDefaults, some ⟨markingDefaults, []⟩⟩ : PathBrushState).hist =
        some ⟨markingDefaults, []⟩) ∧
    (((⟨markingDefaults, some ⟨markingDefaults, []⟩⟩ : PathBrushState).drawMove
          examplePoint).hist =
        some (BrushHistory.addPoint ⟨markingDefaults, []⟩ examplePoint) ↔
      ((⟨markingDefaults, []⟩ : BrushHistory).count < 2 ∨
        canDraw markingDefaults (BrushHistory.current ⟨markingDefaults, []⟩)
          examplePoint)) ∧
    (¬ ((⟨markingDefaults, []⟩ : BrushHistory).count < 2 ∨
        canDraw markingDefaults (BrushHistory.current ⟨markingDefaults, []⟩)
          examplePoint) →
      (⟨markingDefaults, some ⟨markingDefaults, []⟩⟩ : PathBrushState).drawMove
        examplePoint = ⟨markingDefaults, some ⟨markingDefaults, []⟩⟩) :=
  ⟨rfl,
    (drawMove_accept_iff ⟨markingDefaults, some ⟨markingDefaults, []⟩⟩
      ⟨markingDefaults, []⟩ examplePoint rfl).1,
    (drawMove_accept_iff ⟨markingDefaults, some ⟨markingDefaults, []⟩⟩
      ⟨markingDefaults, []⟩ examplePoint rfl).2⟩

/-- C7: `exportHistory()` deep-copies every stroke — as values the exported
strokes equal the committed ones — and constructing a new instance from the
export with an equally-sized image keeps exactly those strokes, so the new
instance's full redraw issues the same draw calls (an identical raster) as
replaying the original committed history. -/
theorem export_import_redraw (p : PaperDoc) :
    (p.exportHistory).histories = p.histories ∧
    redrawCalls (initHistories (some p.exportHistory) p.width p.height) =
      redrawCalls p.histories := by
  have hclone : p.histories.map BrushHistory.clone = p.histories := by
    have hid : BrushHistory.clone = id := funext BrushHistory.clone_eq
    rw [hid, List.map_id]
  constructor
  · simp [PaperDoc.exportHistory, hclone]
  · simp [initHistories, PaperDoc.exportHistory, hclone]

/-- C9 (counterexample): starting at `(0, 0, 1)` with corrected target
`(5/2, 0, 1)` and `maxDuration = 200` the computed duration is `10` ms —
positive — yet `animateTo` assigns the target instantly instead of running
the frame-by-frame animation. -/
theorem animateTo_instant_counterexample :
    animateToResult 0 0 1 (5/2) 0 1 200 = .instant (5/2) 0 1 ∧
    animateToResult 0 0 1 (5/2) 0 1 200 ≠ .animated (5/2) 0 1 ∧
    ¬ durLE0 0 0 1 (5/2) 0 1 200 := by
  have h0 : ¬ durLE0 0 0 1 (5/2) 0 1 200 := by
    rw [durLE0_iff]
    norm_num
  have h16 : durLT16 0 0 1 (5/2) 0 1 200 := by
    rw [durLT16_iff]
    norm_num
  refine ⟨?_, ?_, h0⟩
  · unfold animateToResult
    rw [if_neg h0, if_pos h16]
  · unfold animateToResult
    rw [if_neg h0, if_pos h16]
    simp

/-- C9 (amended): the snap-back duration is
`max(clamp(dist*4, 0, maxDuration), clamp(|Δscale|*1000, 0, maxDuration))`
(the formula embedded in `durLE0`/`durLT16`); when that duration is positive
the transition is animated if and only if it is at least 16 ms — a smaller
positive duration applies the corrected target instantly. -/
theorem animateTo_animates_iff (sx sy ss ex ey es maxDuration : ℚ)
    (h0 : ¬ durLE0 sx sy ss ex ey es maxDuration) :
    (animateToResult sx sy ss ex ey es maxDuration = .animated ex ey es ↔
      ¬ durLT16 sx sy ss ex ey es maxDuration) ∧
    (animateToResult sx sy ss ex ey es maxDuration = .instant ex ey es ↔
      durLT16 sx sy ss ex ey es maxDuration) := by
  unfold animateToResult
  rw [if_neg h0]
  by_cases h16 : durLT16 sx sy ss ex ey es maxDuration
  · rw [if_pos h16]
    constructor
    · constructor
      · intro heq
        cases heq
      · intro hn
        exact absurd h16 hn
    · exact iff_of_true rfl h16
  · rw [if_neg h16]
    constructor
    · exact iff_of_true rfl h16
    · constructor
      · intro heq
        cases heq
      · intro habs
        exact absurd habs h16

/-- Witness for C9 (amended): a pure scale change of `1` yields duration
`200 ≥ 16` and an animated transition. -/
theorem animateTo_animates_iff_witness :
    (¬ durLE0 0 0 1 0 0 2 200) ∧
    ((animateToResult 0 0 1 0 0 2 200 = .animated 0 0 2 ↔
        ¬ durLT16 0 0 1 0 0 2 200) ∧
      (animateToResult 0 0 1 0 0 2 200 = .instant 0 0 2 ↔
        durLT16 0 0 1 0 0 2 200)) :=
  ⟨by rw [durLE0_iff]; norm_num,
    animateTo_animates_iff 0 0 1 0 0 2 200 (by rw [durLE0_iff]; norm_num)⟩

theorem natHexChars_small (n : ℕ) (h : n < 16) :
    natHexChars n = [Nat.digitChar n] := by
  rw [natHexChars]
  rw [dif_pos h]

theorem natHexChars_two_digits (n : ℕ) (h16 : 16 ≤ n) (h256 : n < 256) :
    natHexChars n = [Nat.digitChar (n / 16), Nat.digitChar (n % 16)] := by
  rw [natHexChars]
  rw [dif_neg (by omega)]
  rw [natHexChars_small (n / 16) (by omega)]
  rfl

theorem natHexChars_length_le (k : ℕ) :
    ∀ n : ℕ, n < 16 ^ (k + 1) → (natHexChars n).length ≤ k + 1 := by
  induction k with
  | zero =>
      intro n h
      rw [natHexChars_small n (by simpa using h)]
      simp
  | succ k ih =>
      intro n h
      by_cases hn : n < 16
      · rw [natHexChars_small n hn]
        simp
      · rw [natHexChars, dif_neg hn, List.length_append]
        have hdiv : n / 16 < 16 ^ (k + 1) := by
          have hmul : n < 16 * 16 ^ (k + 1) := by
            have hpow : (16 : ℕ) ^ (k + 1 + 1) = 16 * 16 ^ (k + 1) := by ring
            omega
          exact Nat.div_lt_of_lt_mul hmul
        have hlen := ih (n / 16) hdiv
        simp only [List.length_cons, List.length_nil]
        omega

theorem padColorLoop_eq (s : String) :
    padColorLoop s = ⟨List.replicate (6 - s.length) '0' ++ s.data⟩ := by
  suffices hgen : ∀ n : ℕ, ∀ s : String, 6 - s.length = n →
      padColorLoop s = ⟨List.replicate (6 - s.length) '0' ++ s.data⟩ by
    exact hgen (6 - s.length) s rfl
  intro n
  induction n with
  | zero =>
      intro s hz
      rw [padColorLoop, if_neg (by omega), hz]
      simp
  | succ n ih =>
      intro s hsucc
      have hlen : ("0" ++ s).length = 1 + s.length := by
        rw [String.length_append]
        rfl
      have hlt : s.length < 6 := by omega
      rw [padColorLoop, if_pos hlt]
      have hnext : 6 - ("0" ++ s).length = n := by omega
      rw [ih ("0" ++ s) hnext, hnext, hsucc]
      have hdata : ("0" ++ s).data = '0' :: s.data := by
        rw [String.data_append]
        rfl
      rw [hdata]
      congr 1
      rw [List.replicate_succ']
      simp

theorem padColorLoop_hex_eq (n : ℕ) :
    padColorLoop (natToHexString n) = specZeroPaddedHex 6 n := by
  rw [padColorLoop_eq]
  rfl

theorem padColorLoop_length (s : String) :
    (padColorLoop s).length = max 6 s.length := by
  rw [padColorLoop_eq]
  have hdl : s.length = s.data.length := rfl
  show (List.replicate (6 - s.length) '0' ++ s.data).length = max 6 s.length
  rw [List.length_append, List.length_replicate, Nat.max_def]
  split
  · omega
  · omega

theorem padAlphaLoop_succ (c : String) (fuel : ℕ) (a : String) :
    padAlphaLoop c (fuel + 1) a =
      if a.length < 2 then padAlphaLoop c fuel ("0" ++ c) else a := rfl

/-- C10: for an integer color in `[0, 0xFFFFFF]` and `floor(alpha*255)` in
`[16, 255]`, `strokeStyle` returns the 9-character string `'#'` + 6-digit
zero-padded lowercase hex color + 2-digit hex alpha; when `floor(alpha*255)`
is below 16 the alpha-padding loop instead concatenates `'0'` with the color
hex string, producing a 14-character string that is not a well-formed
`#RRGGBBAA` color. -/
theorem strokeStyle_spec (configs : BrushConfigs)
    (hc : configs.color ≤ 0xFFFFFF)
    (h0 : 0 ≤ ⌊configs.alpha * 255⌋) (h255 : ⌊configs.alpha * 255⌋ ≤ 255) :
    strokeStyle configs =
      (if 16 ≤ ⌊configs.alpha * 255⌋ then
        "#" ++ specZeroPaddedHex 6 configs.color ++
          specZeroPaddedHex 2 (⌊configs.alpha * 255⌋).toNat
      else
        "#" ++ specZeroPaddedHex 6 configs.color ++
          ("0" ++ specZeroPaddedHex 6 configs.color)) ∧
    (strokeStyle configs).length =
      (if 16 ≤ ⌊configs.alpha * 255⌋ then 9 else 14) := by
  have hlt : configs.color < 16 ^ 6 := by
    have h6 : (16 : ℕ) ^ 6 = 16777216 := by norm_num
    omega
  have hclen : (natHexChars configs.color).length ≤ 6 :=
    natHexChars_length_le 5 configs.color hlt
  have hcolor := padColorLoop_hex_eq configs.color
  have hcollen : (padColorLoop (natToHexString configs.color)).length = 6 := by
    rw [padColorLoop_length]
    have hsl : (natToHexString configs.color).length =
        (natHexChars configs.color).length := rfl
    rw [hsl, Nat.max_def]
    split
    · omega
    · omega
  have hint : intToHexString ⌊configs.alpha * 255⌋ =
      natToHexString (⌊configs.alpha * 255⌋).toNat := by
    unfold intToHexString
    rw [if_neg (by omega)]
  unfold strokeStyle
  dsimp only
  by_cases h16 : 16 ≤ ⌊configs.alpha * 255⌋
  · have ha2 : natHexChars (⌊configs.alpha * 255⌋).toNat =
        [Nat.digitChar ((⌊configs.alpha * 255⌋).toNat / 16),
          Nat.digitChar ((⌊configs.alpha * 255⌋).toNat % 16)] :=
      natHexChars_two_digits _ (by omega) (by omega)
    have halen : (intToHexString ⌊configs.alpha * 255⌋).length = 2 := by
      rw [hint]
      show (natHexChars (⌊configs.alpha * 255⌋).toNat).length = 2
      rw [ha2]
      rfl
    have hpad : padAlphaLoop (padColorLoop (natToHexString configs.color)) 2
        (intToHexString ⌊configs.alpha * 255⌋) =
        intToHexString ⌊configs.alpha * 255⌋ := by
      rw [show (2 : ℕ) = 1 + 1 from rfl, padAlphaLoop_succ, if_neg (by omega)]
    have hspec2 : specZeroPaddedHex 2 (⌊configs.alpha * 255⌋).toNat =
        natToHexString (⌊configs.alpha * 255⌋).toNat := by
      unfold specZeroPaddedHex natToHexString
      rw [ha2]
      rfl
    rw [if_pos h16, if_pos h16]
    constructor
    · rw [hpad, hint, hcolor, hspec2]
    · rw [hpad, String.length_append, String.length_append, hcollen, halen]
      rfl
  · have ha1 : natHexChars (⌊configs.alpha * 255⌋).toNat =
        [Nat.digitChar (⌊configs.alpha * 255⌋).toNat] :=
      natHexChars_small _ (by omega)
    have halen : (intToHexString ⌊configs.alpha * 255⌋).length = 1 := by
      rw [hint]
      show (natHexChars (⌊configs.alpha * 255⌋).toNat).length = 1
      rw [ha1]
      rfl
    have hzlen : ("0" ++ padColorLoop (natToHexString configs.color)).length = 7 := by
      rw [String.length_append, hcollen]
      rfl
    have hpad : padAlphaLoop (padColorLoop (natToHexString configs.color)) 2
        (intToHexString ⌊configs.alpha * 255⌋) =
        "0" ++ padColorLoop (natToHexString configs.color) := by
      rw [show (2 : ℕ) = 1 + 1 from rfl, padAlphaLoop_succ, if_pos (by omega)]
      rw [padAlphaLoop_succ, if_neg (by omega)]
    rw [if_neg h16, if_neg h16]
    constructor
    · rw [hpad, hcolor]
    · rw [hpad, String.length_append, String.length_append, hcollen, hzlen]
      rfl

/-- Witness for C10 at the default marking brush (color `0x0E9C4B`,
alpha `1`). -/
theorem strokeStyle_spec_witness :
    (markingDefaults.color ≤ 0xFFFFFF) ∧
    (0 ≤ ⌊markingDefaults.alpha * 255⌋) ∧
    (⌊markingDefaults.alpha * 255⌋ ≤ 255) ∧
    (strokeStyle markingDefaults =
      (if 16 ≤ ⌊markingDefaults.alpha * 255⌋ then
        "#" ++ specZeroPaddedHex 6 markingDefaults.color ++
          specZeroPaddedHex 2 (⌊markingDefaults.alpha * 255⌋).toNat
      else
        "#" ++ specZeroPaddedHex 6 markingDefaults.color ++
          ("0" ++ specZeroPaddedHex 6 markingDefaults.color)) ∧
    (strokeStyle markingDefaults).length =
      (if 16 ≤ ⌊markingDefaults.alpha * 255⌋ then 9 else 14)) :=
  ⟨by norm_num [markingDefaults], by norm_num [markingDefaults],
    by norm_num [markingDefaults],
    strokeStyle_spec markingDefaults (by norm_num [markingDefaults])
      (by norm_num [markingDefaults]) (by norm_num [markingDefaults])⟩
